import Mathlib

set_option maxRecDepth 40000

/-!
Verification development for the resume parsing and scoring pipeline
(app/services/resume_parser.py and app/services/resume_scorer.py).

The extraction engine is embedded shallowly: Python strings become Lean
strings manipulated through explicit character lists, Python regular
expressions become a small executable backtracking matcher applied to
hand-translated pattern trees, and the two stateful line-scan loops become
folds over an explicit accumulator state.  The linguistic annotator
(spaCy) is an external collaborator: its entity spans and phrase-matcher
hits are passed in as inputs.

Character classes are modelled over the ASCII range, which covers every
character the pipeline's patterns can consume.
-/

/-! Python string primitives. -/

def pyIsSpace (c : Char) : Bool :=
  c == ' ' || c == '\t' || c == '\n' || c == '\r' || c == Char.ofNat 11 || c == Char.ofNat 12

def isWordA (c : Char) : Bool := c.isAlpha || c.isDigit || c == '_'

def lowerL (l : List Char) : List Char := l.map Char.toLower

def pyLower (s : String) : String := ⟨lowerL s.data⟩

def stripL (l : List Char) : List Char :=
  ((l.dropWhile pyIsSpace).reverse.dropWhile pyIsSpace).reverse

def pyStrip (s : String) : String := ⟨stripL s.data⟩

def splitOnCharL (sep : Char) : List Char → List (List Char)
  | [] => [[]]
  | c :: rest =>
    match splitOnCharL sep rest with
    | [] => [[]]
    | h :: t => if c == sep then [] :: h :: t else (c :: h) :: t

def splitOnPredL (p : Char → Bool) : List Char → List (List Char)
  | [] => [[]]
  | c :: rest =>
    match splitOnPredL p rest with
    | [] => [[]]
    | h :: t => if p c then [] :: h :: t else (c :: h) :: t

def startsWithL : List Char → List Char → Bool
  | [], _ => true
  | _ :: _, [] => false
  | p :: ps, t :: ts => p == t && startsWithL ps ts

def containsSub (pat : List Char) : List Char → Bool
  | [] => startsWithL pat []
  | c :: ts => startsWithL pat (c :: ts) || containsSub pat ts

def lstripSetL (cs : List Char) (l : List Char) : List Char :=
  l.dropWhile (fun c => cs.contains c)

def sliceL (l : List Char) (s e : Nat) : List Char := (l.drop s).take (e - s)

def pyTruthyOpt : Option String → Bool
  | none => false
  | some s => !(s == "")

def cleanLines (s : String) : List String :=
  ((splitOnCharL '\n' s.data).map (fun p => pyStrip ⟨p⟩)).filter (fun l => !(l == ""))

def strSort (l : List String) : List String := List.insertionSort (· ≤ ·) l

/-! A small backtracking matcher for the regular expressions the parser
    uses.  Alternation prefers the left branch, repetition is greedy, and
    the continuation-passing style gives the same first-match semantics as
    the CPython engine on these patterns.  A structurally decreasing fuel
    argument keeps every function executable by the kernel; the fuel
    supplied by fuelFor dominates the deepest possible call chain. -/

inductive Re where
  | eps : Re
  | cls : (Char → Bool) → Re
  | seq : Re → Re → Re
  | alt : Re → Re → Re
  | star : Re → Re

def Re.size : Re → Nat
  | .eps => 1
  | .cls _ => 1
  | .seq a b => a.size + b.size + 1
  | .alt a b => a.size + b.size + 1
  | .star r => r.size + 1

def mtch : Nat → Re → List Char → (List Char → Option (List Char)) → Option (List Char)
  | 0, _, _, _ => none
  | _ + 1, Re.eps, l, k => k l
  | _ + 1, Re.cls p, l, k =>
    match l with
    | [] => none
    | c :: rest => if p c then k rest else none
  | f + 1, Re.seq a b, l, k => mtch f a l (fun l2 => mtch f b l2 k)
  | f + 1, Re.alt a b, l, k =>
    match mtch f a l k with
    | some r => some r
    | none => mtch f b l k
  | f + 1, Re.star r, l, k =>
    match mtch f r l (fun l2 => if l2.length < l.length then mtch f (Re.star r) l2 k else none) with
    | some res => some res
    | none => k l

def fuelFor (re : Re) (l : List Char) : Nat := (re.size + 2) * (l.length + 2)

def mtchRun (re : Re) (l : List Char) : Option (List Char) :=
  mtch (fuelFor re l) re l some

def searchAux (re : Re) : List Char → Nat → Option (Nat × Nat)
  | [], i =>
    match mtchRun re [] with
    | some _ => some (i, i)
    | none => none
  | c :: rest, i =>
    match mtchRun re (c :: rest) with
    | some rem => some (i, i + ((c :: rest).length - rem.length))
    | none => searchAux re rest (i + 1)

def reSearch (re : Re) (l : List Char) : Option (Nat × Nat) := searchAux re l 0

def findAllAux (re : Re) : Nat → List Char → Nat → List (Nat × Nat)
  | 0, _, _ => []
  | fl + 1, l, i =>
    match searchAux re l i with
    | none => []
    | some (s, e) =>
      let adv := if e > s then e else s + 1
      (s, e) :: findAllAux re fl (l.drop (adv - i)) adv

def reFindAll (re : Re) (l : List Char) : List (Nat × Nat) :=
  findAllAux re (l.length + 1) l 0

def inSpans (sp : List (Nat × Nat)) (i : Nat) : Bool :=
  sp.any (fun se => se.1 ≤ i && i < se.2)

def removeSpans (l : List Char) (sp : List (Nat × Nat)) : List Char :=
  (l.enum.filter (fun ic => !(inSpans sp ic.1))).map Prod.snd

def pySubI (re : Re) (s : String) : String :=
  ⟨removeSpans s.data (reFindAll re (lowerL s.data))⟩

def splitBySpans : List (Nat × Nat) → List Char → Nat → List (List Char)
  | [], l, _ => [l]
  | (s, e) :: rest, l, ofs => (l.take (s - ofs)) :: splitBySpans rest (l.drop (e - ofs)) e

def pySplitReI (re : Re) (s : String) : List String :=
  (splitBySpans (reFindAll re (lowerL s.data)) s.data 0).map (fun p => (⟨p⟩ : String))

/-! Pattern-building helpers. -/

def rchar (c : Char) : Re := Re.cls (fun x => x == c)

def rstrL : List Char → Re
  | [] => Re.eps
  | c :: cs => Re.seq (rchar c) (rstrL cs)

def rstr (s : String) : Re := rstrL s.data

def ropt (r : Re) : Re := Re.alt r Re.eps

def rplus (r : Re) : Re := Re.seq r (Re.star r)

def rFail : Re := Re.cls (fun _ => false)

def altsStr (ss : List String) : Re := ss.foldr (fun s r => Re.alt (rstr s) r) rFail

def optChain (r : Re) : Nat → Re
  | 0 => Re.eps
  | n + 1 => ropt (Re.seq r (optChain r n))

def repRange (r : Re) : Nat → Nat → Re
  | 0, ex => optChain r ex
  | lo + 1, ex => Re.seq r (repRange r lo ex)

def wsC : Re := Re.cls pyIsSpace
def digC : Re := Re.cls Char.isDigit
def alphaC : Re := Re.cls Char.isAlpha
def wordC : Re := Re.cls isWordA

/-! Concrete patterns, translated from resume_parser.py.  Patterns carrying
    the IGNORECASE flag are written in lower case and run against the
    lowered text; captured substrings are recovered from the original text
    through the match offsets, as CPython does. -/

def emailLocalC : Re :=
  Re.cls (fun c => c.isAlpha || c.isDigit || c == '.' || c == '_' || c == '%' || c == '+' || c == '-')

def emailDomC : Re := Re.cls (fun c => c.isAlpha || c.isDigit || c == '.' || c == '-')

def emailRe : Re :=
  Re.seq (rplus emailLocalC) (Re.seq (rchar '@') (Re.seq (rplus emailDomC)
    (Re.seq (rchar '.') (Re.seq alphaC (Re.seq alphaC (Re.star alphaC))))))

def sepC : Re := Re.cls (fun c => c == '-' || c == '.' || pyIsSpace c)

def d3 : Re := Re.seq digC (Re.seq digC digC)

def d4 : Re := Re.seq digC d3

def phone1Re : Re :=
  Re.seq (ropt (Re.seq (ropt (rchar '+')) (Re.seq (rchar '1') (ropt sepC))))
    (Re.seq (ropt (rchar '(')) (Re.seq d3 (Re.seq (ropt (rchar ')'))
      (Re.seq (ropt sepC) (Re.seq d3 (Re.seq (ropt sepC) d4))))))

def phone2Re : Re :=
  Re.seq (rchar '+') (Re.seq (repRange digC 1 2) (Re.seq (ropt sepC)
    (Re.seq (repRange digC 1 3) (Re.seq (ropt sepC) (Re.seq (repRange digC 1 3)
      (Re.seq (ropt sepC) (repRange digC 1 8)))))))

def linkedinRe : Re :=
  Re.seq (ropt (Re.seq (rstr "http") (Re.seq (ropt (rchar 's')) (rstr "://"))))
    (Re.seq (ropt (rstr "www.")) (Re.seq (rstr "linkedin.com/in/")
      (rplus (Re.cls (fun c => isWordA c || c == '-')))))

def dashToC : Re := Re.cls (fun c => c == '-' || c == '–' || c == '—' || c == 't' || c == 'o')

def dateNumSlash : Re := Re.seq (repRange digC 1 1) (Re.seq (rchar '/') d4)

def dateWordYear : Re := Re.seq (rplus wordC) (Re.seq (rplus wsC) d4)

def dateStartRe : Re := Re.alt dateNumSlash (Re.alt dateWordYear d4)

def dateEndRe : Re :=
  Re.alt dateNumSlash (Re.alt dateWordYear (Re.alt d4 (Re.alt (rstr "present") (rstr "current"))))

def dateRangeRe : Re :=
  Re.seq dateStartRe (Re.seq (Re.star wsC) (Re.seq (rplus dashToC) (Re.seq (Re.star wsC) dateEndRe)))

def apos : Char := Char.ofNat 39

def dotO : Re := ropt (rchar '.')

def degBachelorRe : Re :=
  Re.alt (Re.seq (rstr "bachelor") (Re.seq (ropt (rchar apos)) (ropt (rchar 's'))))
  (Re.alt (Re.seq (rchar 'b') (Re.seq dotO (Re.seq (rchar 's') dotO)))
  (Re.alt (Re.seq (rchar 'b') (Re.seq dotO (Re.seq (rchar 'a') dotO)))
  (Re.alt (Re.seq (rchar 'b') (Re.seq dotO (Re.seq (rchar 'e') dotO)))
          (Re.seq (rchar 'b') (Re.seq dotO (rstr "tech"))))))

def degMasterRe : Re :=
  Re.alt (Re.seq (rstr "master") (Re.seq (ropt (rchar apos)) (ropt (rchar 's'))))
  (Re.alt (Re.seq (rchar 'm') (Re.seq dotO (Re.seq (rchar 's') dotO)))
  (Re.alt (Re.seq (rchar 'm') (Re.seq dotO (Re.seq (rchar 'a') dotO)))
  (Re.alt (Re.seq (rchar 'm') (Re.seq dotO (Re.seq (rchar 'e') dotO)))
  (Re.alt (Re.seq (rchar 'm') (Re.seq dotO (rstr "tech"))) (rstr "mba")))))

def degPhdRe : Re :=
  Re.alt (Re.seq (rstr "ph") (Re.seq dotO (Re.seq (rchar 'd') dotO)))
  (Re.alt (rstr "doctorate") (rstr "doctoral"))

def degAssocRe : Re :=
  Re.alt (Re.seq (rstr "associate") (Re.seq (ropt (rchar apos)) (ropt (rchar 's'))))
  (Re.alt (Re.seq (rchar 'a') (Re.seq dotO (Re.seq (rchar 's') dotO)))
          (Re.seq (rchar 'a') (Re.seq dotO (Re.seq (rchar 'a') dotO))))

def degDipRe : Re := Re.alt (rstr "diploma") (rstr "certificate")

def degPatterns : List Re := [degBachelorRe, degMasterRe, degPhdRe, degAssocRe, degDipRe]

def yearRe : Re := Re.seq (Re.alt (rstr "19") (rstr "20")) (Re.seq digC digC)

/-! Section segmentation, translated from ResumeParser._get_section_text.
    The leading (caret or newline) anchor of the header pattern is handled
    by the position-aware scanner hdrScan; the rest of the pattern is the
    tree built by hdrRe. -/

def sectionNames : List String := ["experience", "education", "skills", "summary", "certifications"]

def sectionHeaders (sec : String) : List String :=
  if sec == "experience" then
    ["experience", "work experience", "employment", "work history",
     "professional experience", "career history", "employment history"]
  else if sec == "education" then
    ["education", "academic", "qualifications", "academic background",
     "educational background", "academic qualifications"]
  else if sec == "skills" then
    ["skills", "technical skills", "core competencies", "competencies",
     "expertise", "technologies", "proficiencies", "abilities"]
  else if sec == "summary" then
    ["summary", "profile", "objective", "professional summary",
     "career objective", "about me", "overview"]
  else if sec == "certifications" then
    ["certifications", "certificates", "licenses", "credentials",
     "professional certifications"]
  else []

def hdrRe (sec : String) : Re :=
  Re.seq (Re.star wsC) (Re.seq (altsStr (sectionHeaders sec))
    (Re.seq (Re.star wsC) (Re.seq (ropt (rchar ':')) (Re.seq (Re.star wsC) (rchar '\n')))))

def hdrTry (re : Re) (l : List Char) (i : Nat) : Option Nat :=
  match (if i == 0 then mtchRun re l else none) with
  | some rem => some (i + (l.length - rem.length))
  | none =>
    match l with
    | '\n' :: rest =>
      match mtchRun re rest with
      | some rem => some (i + 1 + (rest.length - rem.length))
      | none => none
    | _ => none

def hdrScan (re : Re) : Nat → List Char → Nat → List (Nat × Nat)
  | 0, _, _ => []
  | fl + 1, l, i =>
    match hdrTry re l i with
    | some e => (i, e) :: hdrScan re fl (l.drop (e - i)) e
    | none =>
      match l with
      | [] => []
      | _ :: rest => hdrScan re fl rest (i + 1)

def hdrInsert (a : Nat × Nat × String) : List (Nat × Nat × String) → List (Nat × Nat × String)
  | [] => [a]
  | b :: t => if a.1 ≤ b.1 then a :: b :: t else b :: hdrInsert a t

def hdrSortIns : List (Nat × Nat × String) → List (Nat × Nat × String)
  | [] => []
  | a :: t => hdrInsert a (hdrSortIns t)

def allHeaders (text : String) : List (Nat × Nat × String) :=
  let lt := lowerL text.data
  let raw := sectionNames.flatMap (fun sec =>
    (hdrScan (hdrRe sec) (lt.length + 1) lt 0).map (fun se => (se.1, se.2, sec)))
  hdrSortIns raw

def findSec : List (Nat × Nat × String) → String → Nat → Option (Nat × Nat)
  | [], _, _ => none
  | (_, e, n) :: rest, sec, tlen =>
    if n == sec then
      some (e, match rest with
               | [] => tlen
               | (s2, _, _) :: _ => s2)
    else findSec rest sec tlen

def getSectionText (text : String) (sec : String) : Option String :=
  if sectionHeaders sec == [] then none
  else
    match findSec (allHeaders text) sec text.length with
    | some be => some (pyStrip ⟨sliceL text.data be.1 be.2⟩)
    | none => none

def sectionBody (o : Option String) : Option String :=
  match o with
  | none => none
  | some s => if s == "" then none else some s

/-! Field-of-study pattern: a direct implementation of the search for
    (?:in|of)\s+([A-Za-z\s]+?)(?:\s*[,|\n]|$) with IGNORECASE, returning
    the first capture group.  The lazy group grows one character at a time
    and the greedy run of spaces backtracks from longest to shortest,
    reproducing the CPython backtracking order. -/

def fosClassC (c : Char) : Bool := c.isAlpha || pyIsSpace c

def fosTermC (c : Char) : Bool := c == ',' || c == '|' || c == '\n'

def fosTermSkipWs : List Char → Bool
  | [] => false
  | c :: r => if fosTermC c then true else if pyIsSpace c then fosTermSkipWs r else false

def fosTerm (l : List Char) : Bool :=
  fosTermSkipWs l || l.isEmpty || l == ['\n']

def fosGrow (accRev : List Char) : List Char → Option (List Char)
  | [] => none
  | c :: rest =>
    if fosClassC c then
      if fosTerm rest then some ((c :: accRev).reverse)
      else fosGrow (c :: accRev) rest
    else none

def fosTryJ (l : List Char) : Nat → Option (List Char)
  | 0 => none
  | j + 1 =>
    match fosGrow [] (l.drop (j + 1)) with
    | some g => some g
    | none => fosTryJ l j

def fosKw : List Char → Option (List Char)
  | c1 :: c2 :: rest =>
    if c1.toLower == 'i' && c2.toLower == 'n' then some rest
    else if c1.toLower == 'o' && c2.toLower == 'f' then some rest
    else none
  | _ => none

def fosAt (l : List Char) : Option (List Char) :=
  match fosKw l with
  | some rest => fosTryJ rest (rest.takeWhile pyIsSpace).length
  | none => none

def fosSearch : List Char → Option (List Char)
  | [] => none
  | c :: rest =>
    match fosAt (c :: rest) with
    | some g => some g
    | none => fosSearch rest

/-! Splitting a matched date range on [-–—]|to with IGNORECASE, as
    re.split does in _extract_experience. -/

def isDashC (c : Char) : Bool := c == '-' || c == '–' || c == '—'

def splitDatesL : List Char → List (List Char)
  | [] => [[]]
  | [c] => if isDashC c then [[], []] else [[c]]
  | c :: c2 :: rest =>
    if isDashC c then
      [] :: splitDatesL (c2 :: rest)
    else if c.toLower == 't' && c2.toLower == 'o' then
      [] :: splitDatesL rest
    else
      match splitDatesL (c2 :: rest) with
      | [] => [[c]]
      | h :: t => (c :: h) :: t

/-! Data model, translated from app/models/schemas.py.  The entity spans
    and phrase-matcher hits produced by the spaCy annotator are inputs. -/

structure ContactInfo where
  name : Option String := none
  email : Option String := none
  phone : Option String := none
  linkedin : Option String := none
  location : Option String := none
deriving DecidableEq, Repr

structure WorkExperience where
  company : Option String := none
  title : Option String := none
  start_date : Option String := none
  end_date : Option String := none
  description : Option String := none
  highlights : List String := []
deriving DecidableEq, Repr

structure Education where
  institution : Option String := none
  degree : Option String := none
  field_of_study : Option String := none
  start_date : Option String := none
  end_date : Option String := none
  gpa : Option String := none
deriving DecidableEq, Repr

structure Ent where
  label : String
  text : String
deriving DecidableEq, Repr

structure ParsedResume where
  contact : ContactInfo := {}
  summary : Option String := none
  skills : List String := []
  experience : List WorkExperience := []
  education : List Education := []
  certifications : List String := []
  languages : List String := []
  raw_text : Option String := none
deriving DecidableEq, Repr

/-! Contact extraction, translated from _extract_contact_info. -/

def nameQualifies (l : String) : Bool :=
  !(l == "") && (reSearch emailRe l.data).isNone && decide (l.length < 50)
    && !(l.data.any Char.isDigit)

def nameFallback (text : String) : Option String :=
  ((splitOnCharL '\n' (pyStrip text).data).take 5).findSome? (fun raw =>
    let l := pyStrip ⟨raw⟩
    if nameQualifies l then some l else none)

def extractContactInfo (text : String) (ents : List Ent) : ContactInfo :=
  let email := (reSearch emailRe text.data).map (fun se => (⟨sliceL text.data se.1 se.2⟩ : String))
  let phone :=
    match reSearch phone1Re text.data with
    | some se => some ((⟨sliceL text.data se.1 se.2⟩ : String))
    | none => (reSearch phone2Re text.data).map (fun se => (⟨sliceL text.data se.1 se.2⟩ : String))
  let linkedin := (reSearch linkedinRe (lowerL text.data)).map
    (fun se => (⟨sliceL text.data se.1 se.2⟩ : String))
  let n0 := (ents.find? (fun e => e.label == "PERSON")).map Ent.text
  let name :=
    if pyTruthyOpt n0 then n0
    else
      match nameFallback text with
      | some l => some l
      | none => n0
  let locs := (ents.filter (fun e => e.label == "GPE" || e.label == "LOC")).map Ent.text
  let location := if locs.isEmpty then none else some (String.intercalate ", " (locs.take 2))
  { name := name, email := email, phone := phone, linkedin := linkedin, location := location }

/-! Skills extraction, translated from _extract_skills.  The phrase
    matcher's hits over the annotated document are the mskills input. -/

def skillDelims : List Char := [',', ';', '•', '●', '○', '|', '\n']

def extractSkills (text : String) (mskills : List String) : List String :=
  let secAdds :=
    match sectionBody (getSectionText text "skills") with
    | none => []
    | some s =>
      skillDelims.flatMap (fun d =>
        if s.data.contains d then
          ((splitOnCharL d s.data).map (fun p => pyStrip ⟨p⟩)).filter
            (fun c => !(c == "") && decide (c.length < 50))
        else [])
  strSort ((mskills ++ secAdds).dedup)

/-! Experience extraction, translated from _extract_experience and
    _looks_like_job_title. -/

def jobIndicators : List String :=
  ["engineer", "developer", "manager", "director", "analyst",
   "consultant", "specialist", "coordinator", "administrator",
   "architect", "designer", "lead", "senior", "junior", "intern",
   "associate", "executive", "officer", "president", "vp"]

def looksLikeJobTitle (line : String) : Bool :=
  jobIndicators.any (fun ind => containsSub ind.data (lowerL line.data))

def atSplitRe : Re := Re.seq (rplus wsC) (Re.seq (rchar 'a') (Re.seq (rchar 't') (rplus wsC)))

def bulletChars : List Char := ['•', '-', '*', '●', '○']

def bulletStripSet : List Char := ['•', '-', '*', '●', '○', ' ']

def expParseHeadLine (e : WorkExperience) (lwd : String) : WorkExperience :=
  if containsSub " at ".data (lowerL lwd.data) then
    let parts := pySplitReI atSplitRe lwd
    { e with title := some (pyStrip (parts.headD "")),
             company := if parts.length > 1 then some (pyStrip (parts.getD 1 "")) else e.company }
  else if lwd.data.contains '|' then
    let parts := (splitOnCharL '|' lwd.data).map (fun p => (⟨p⟩ : String))
    { e with title := some (pyStrip (parts.headD "")),
             company := if parts.length > 1 then some (pyStrip (parts.getD 1 "")) else e.company }
  else if lwd.data.contains ',' then
    let parts := (splitOnCharL ',' lwd.data).map (fun p => (⟨p⟩ : String))
    { e with title := some (pyStrip (parts.headD "")),
             company := if parts.length > 1 then some (pyStrip (parts.getD 1 "")) else e.company }
  else { e with title := some lwd }

def expStep (st : Option WorkExperience × List WorkExperience) (line : String) :
    Option WorkExperience × List WorkExperience :=
  let dm := reSearch dateRangeRe (lowerL line.data)
  if dm.isSome || looksLikeJobTitle line then
    let acc :=
      match st.1 with
      | some e => if pyTruthyOpt e.company || pyTruthyOpt e.title then st.2 ++ [e] else st.2
      | none => st.2
    let e1 : WorkExperience :=
      match dm with
      | some se =>
        let dates : String := ⟨sliceL line.data se.1 se.2⟩
        let parts := (splitDatesL dates.data).map (fun p => (⟨p⟩ : String))
        { start_date := (parts.get? 0).map pyStrip, end_date := (parts.get? 1).map pyStrip }
      | none => {}
    let lwd := pyStrip (pySubI dateRangeRe line)
    (some (expParseHeadLine e1 lwd), acc)
  else
    match st.1 with
    | none => st
    | some e =>
      if (match line.data with | c :: _ => bulletChars.contains c | [] => false) then
        let h := pyStrip ⟨lstripSetL bulletStripSet line.data⟩
        if h == "" then (some e, st.2)
        else (some { e with highlights := e.highlights ++ [h] }, st.2)
      else
        match e.description with
        | some d =>
          if d == "" then (some { e with description := some line }, st.2)
          else (some { e with description := some (d ++ " " ++ line) }, st.2)
        | none => (some { e with description := some line }, st.2)

def expFinish (st : Option WorkExperience × List WorkExperience) : List WorkExperience :=
  match st.1 with
  | some e => if pyTruthyOpt e.company || pyTruthyOpt e.title then st.2 ++ [e] else st.2
  | none => st.2

def extractExperience (text : String) : List WorkExperience :=
  match sectionBody (getSectionText text "experience") with
  | none => []
  | some s => (expFinish ((cleanLines s).foldl expStep (none, []))).take 10

/-! Education extraction, translated from _extract_education. -/

def eduHasDegree (line : String) : Bool :=
  degPatterns.any (fun p => (reSearch p (lowerL line.data)).isSome)

def degCapture (line : String) : Option String :=
  degPatterns.findSome? (fun p =>
    (reSearch p (lowerL line.data)).map (fun se => (⟨sliceL line.data se.1 se.2⟩ : String)))

def fosCapture (line : String) : Option String :=
  (fosSearch line.data).map (fun g => pyStrip ⟨g⟩)

def yearCapture (line : String) : Option String :=
  (reSearch yearRe line.data).map (fun se => (⟨sliceL line.data se.1 se.2⟩ : String))

def mkEduEntry (line : String) : Education :=
  { institution := none, degree := degCapture line, field_of_study := fosCapture line,
    start_date := none, end_date := yearCapture line, gpa := none }

def eduStep (st : Option Education × List Education) (line : String) :
    Option Education × List Education :=
  if eduHasDegree line then
    let acc :=
      match st.1 with
      | some e => st.2 ++ [e]
      | none => st.2
    (some (mkEduEntry line), acc)
  else
    match st.1 with
    | some e =>
      if pyTruthyOpt e.institution then st
      else if eduHasDegree line then st
      else (some { e with institution := some line }, st.2)
    | none => st

def eduFinish (st : Option Education × List Education) : List Education :=
  match st.1 with
  | some e => st.2 ++ [e]
  | none => st.2

def eduSource (text : String) : String :=
  match sectionBody (getSectionText text "education") with
  | none => text
  | some s => s

def eduLines (text : String) : List String := cleanLines (eduSource text)

def extractEducation (text : String) : List Education :=
  (eduFinish ((eduLines text).foldl eduStep (none, []))).take 5

/-! Summary, certifications and languages, translated from
    _extract_summary, _extract_certifications, _extract_languages. -/

def extractSummary (text : String) : Option String :=
  match sectionBody (getSectionText text "summary") with
  | none => none
  | some s =>
    let words := (splitOnPredL pyIsSpace s.data).filter (fun w => !w.isEmpty)
    let joined := String.intercalate " " (words.map (fun w => (⟨w⟩ : String)))
    some (if joined.length > 1000 then (⟨joined.data.take 1000⟩ : String) else joined)

def extractCertifications (text : String) : List String :=
  match sectionBody (getSectionText text "certifications") with
  | none => []
  | some s =>
    (((splitOnCharL '\n' s.data).map (fun p => (⟨lstripSetL bulletStripSet (stripL p)⟩ : String))).filter
      (fun l => !(l == "") && decide (l.length < 200))).take 20

def commonLanguages : List String :=
  ["English", "Spanish", "French", "German", "Chinese", "Mandarin",
   "Japanese", "Korean", "Portuguese", "Italian", "Russian", "Arabic",
   "Hindi", "Dutch", "Swedish", "Norwegian", "Danish", "Finnish",
   "Polish", "Turkish", "Vietnamese", "Thai", "Indonesian"]

def extractLanguages (text : String) (ents : List Ent) : List String :=
  let tl := lowerL text.data
  let fromList := commonLanguages.filter (fun lang => containsSub (lowerL lang.data) tl)
  let fromEnts := (ents.filter (fun e => e.label == "LANGUAGE")).map Ent.text
  strSort ((fromList ++ fromEnts).dedup)

/-! The full parse, translated from ResumeParser.parse. -/

def parse (text : String) (ents : List Ent) (mskills : List String) (includeRaw : Bool) :
    ParsedResume :=
  { contact := extractContactInfo text ents,
    summary := extractSummary text,
    skills := extractSkills text mskills,
    experience := extractExperience text,
    education := extractEducation text,
    certifications := extractCertifications text,
    languages := extractLanguages text ents,
    raw_text := if includeRaw then some text else none }

def scenarioText : String := "John Smith\njohn@x.com\n(555) 123-4567\n\nEXPERIENCE\nSoftware Engineer at Acme Corp\n2020 - 2022\n• Built things\n\nEDUCATION\nBachelor of Science in Computer Science\nState University\n2019"


/-! Scoring engine, translated from app/services/resume_scorer.py. -/

structure ScoreBreakdown where
  score : Nat
  max : Nat
  details : String
deriving DecidableEq, Repr

structure ResumeScore where
  total_score : Nat
  grade : String
  base_score : Nat
  bonus_score : Nat
  breakdown : List (String × ScoreBreakdown)
  bonuses : List (String × Nat)
  suggestions : List String
deriving DecidableEq, Repr

def contactFieldsCount (r : ParsedResume) : Nat :=
  (if pyTruthyOpt r.contact.name then 1 else 0) + (if pyTruthyOpt r.contact.email then 1 else 0) +
  (if pyTruthyOpt r.contact.phone then 1 else 0) + (if pyTruthyOpt r.contact.linkedin then 1 else 0)

def contactRawScore (r : ParsedResume) : Nat :=
  (if pyTruthyOpt r.contact.name then 5 else 0) + (if pyTruthyOpt r.contact.email then 5 else 0) +
  (if pyTruthyOpt r.contact.phone then 3 else 0) + (if pyTruthyOpt r.contact.linkedin then 2 else 0)

def contactScore (r : ParsedResume) : Nat := min (contactRawScore r) 15

def summaryScore (r : ParsedResume) : Nat :=
  if pyTruthyOpt r.summary then
    let n := (r.summary.getD "").length
    if n ≥ 200 then 10 else if n ≥ 100 then 7 else if n ≥ 50 then 5 else 3
  else 0

def skillsScore (r : ParsedResume) : Nat :=
  let n := r.skills.length
  if n ≥ 10 then 20 else if n ≥ 7 then 15 else if n ≥ 4 then 10 else if n ≥ 1 then 5 else 0

def expDetailed (e : WorkExperience) : Bool :=
  pyTruthyOpt e.title && pyTruthyOpt e.company &&
    (pyTruthyOpt e.description || !e.highlights.isEmpty)

def expWithDetails (r : ParsedResume) : Nat := (r.experience.filter expDetailed).length

def experienceScore (r : ParsedResume) : Nat :=
  let n := r.experience.length
  let d := expWithDetails r
  if n ≥ 3 ∧ d ≥ 2 then 30 else if n ≥ 2 ∧ d ≥ 1 then 22 else if n ≥ 1 then 15 else 0

def eduWithDegree (r : ParsedResume) : Nat :=
  (r.education.filter (fun e => pyTruthyOpt e.degree)).length

def educationScore (r : ParsedResume) : Nat :=
  let n := r.education.length
  if n ≥ 1 ∧ eduWithDegree r ≥ 1 then 15 else if n ≥ 1 then 10 else 0

def certificationsScore (r : ParsedResume) : Nat := min (r.certifications.length * 2) 5

def languagesScore (r : ParsedResume) : Nat := min (r.languages.length * 2) 5

def baseScore (r : ParsedResume) : Nat :=
  contactScore r + summaryScore r + skillsScore r + experienceScore r +
    educationScore r + certificationsScore r + languagesScore r

def advancedDegreeMarkers : List String := ["master", "mba", "ph.d", "phd", "doctorate"]

def hasAdvancedDegree (r : ParsedResume) : Bool :=
  r.education.any (fun edu =>
    advancedDegreeMarkers.any (fun adv => containsSub adv.data (lowerL (edu.degree.getD "").data)))

def bonusScore (r : ParsedResume) : Nat :=
  (if r.skills.length ≥ 10 then 5 else 0) + (if r.experience.length ≥ 5 then 5 else 0) +
  (if hasAdvancedDegree r then 5 else 0) + (if r.certifications.length ≥ 1 then 3 else 0) +
  (if contactFieldsCount r ≥ 4 then 2 else 0)

def bonusList (r : ParsedResume) : List (String × Nat) :=
  (if r.skills.length ≥ 10 then [("many_skills", 5)] else []) ++
  (if r.experience.length ≥ 5 then [("senior_exp", 5)] else []) ++
  (if hasAdvancedDegree r then [("advanced_degree", 5)] else []) ++
  (if r.certifications.length ≥ 1 then [("certifications", 3)] else []) ++
  (if contactFieldsCount r ≥ 4 then [("complete_contact", 2)] else [])

def breakdownList (r : ParsedResume) : List (String × ScoreBreakdown) :=
  [("contact", ⟨contactScore r, 15, toString (contactFieldsCount r) ++ "/4 fields"⟩),
   ("summary", ⟨summaryScore r, 10, toString (r.summary.getD "").length ++ " chars"⟩),
   ("skills", ⟨skillsScore r, 20, toString r.skills.length ++ " skills found"⟩),
   ("experience", ⟨experienceScore r, 30,
      toString r.experience.length ++ " positions, " ++ toString (expWithDetails r) ++ " with details"⟩),
   ("education", ⟨educationScore r, 15, toString r.education.length ++ " entries"⟩),
   ("certifications", ⟨certificationsScore r, 5, toString r.certifications.length ++ " certifications"⟩),
   ("languages", ⟨languagesScore r, 5, toString r.languages.length ++ " languages"⟩)]

def getSuggestions (r : ParsedResume) : List String :=
  (if contactScore r < 10 then ["Add more contact information (LinkedIn, phone)"] else []) ++
  (if summaryScore r < 7 then ["Write a more detailed professional summary (150+ words)"] else []) ++
  (if skillsScore r < 15 then ["List more technical skills relevant to your field"] else []) ++
  (if experienceScore r < 22 then ["Add more details to work experience (achievements, metrics)"] else []) ++
  (if educationScore r < 10 then ["Include education details with degree and institution"] else []) ++
  (if r.certifications.length = 0 then ["Consider adding relevant certifications"] else [])

def scoreResume (r : ParsedResume) : ResumeScore :=
  let base := baseScore r
  let bonus := bonusScore r
  let total := min (base + bonus) 100
  { total_score := total,
    grade :=
      if total ≥ 90 then "A+" else if total ≥ 80 then "A" else if total ≥ 70 then "B"
      else if total ≥ 60 then "C" else if total ≥ 50 then "D" else "F",
    base_score := base,
    bonus_score := bonus,
    breakdown := breakdownList r,
    bonuses := bonusList r,
    suggestions := getSuggestions r }

/-! Definitions written from the specification's words, for comparison
    with the translations from the source above. -/

/-- The grade ladder exactly as the specification words it: at least 90
    gives A+, at least 80 gives A, at least 70 gives B, at least 60 gives
    C, at least 50 gives D, anything lower gives F. -/
def gradeOf (n : Nat) : String :=
  if n ≥ 90 then "A+" else if n ≥ 80 then "A" else if n ≥ 70 then "B"
  else if n ≥ 60 then "C" else if n ≥ 50 then "D" else "F"

/-- The ordered list of suggestion checks as the specification describes
    them: a fixed list of threshold checks, one fixed advisory string per
    failing check, in this order. -/
def suggestionChecks : List ((ParsedResume → Bool) × String) :=
  [(fun r => decide (contactScore r < 10), "Add more contact information (LinkedIn, phone)"),
   (fun r => decide (summaryScore r < 7), "Write a more detailed professional summary (150+ words)"),
   (fun r => decide (skillsScore r < 15), "List more technical skills relevant to your field"),
   (fun r => decide (experienceScore r < 22), "Add more details to work experience (achievements, metrics)"),
   (fun r => decide (educationScore r < 10), "Include education details with degree and institution"),
   (fun r => decide (r.certifications.length = 0), "Consider adding relevant certifications")]

def specSuggestions (r : ParsedResume) : List String :=
  (suggestionChecks.filter (fun cm => cm.1 r)).map Prod.snd

/-- Section locator as the specification words it: all sections' header
    matches collected in one scan and sorted by start offset; the body is
    the raw slice from the end of the first match of the requested section
    to the start offset of the next match of any section, or to the end of
    the text.  No whitespace stripping is mentioned. -/
def specLocate (text : String) (sec : String) : Option String :=
  (findSec (allHeaders text) sec text.length).map
    (fun be => (⟨sliceL text.data be.1 be.2⟩ : String))

/-- Name fallback as claim C4 words it: scan the first five non-empty
    lines and pick the first qualifying one. -/
def specNameFallback (text : String) : Option String :=
  (((((splitOnCharL '\n' (pyStrip text).data).map (fun r => pyStrip ⟨r⟩)).filter
      (fun l => !(l == ""))).take 5).find? nameQualifies)

/-- Name fallback as the code actually behaves: the window is the first
    five raw lines, empty or not, each stripped before testing. -/
def amendedNameRule (text : String) : Option String :=
  (((splitOnCharL '\n' (pyStrip text).data).take 5).map (fun r => pyStrip ⟨r⟩)).find? nameQualifies

/-! Predicates used by the invariant claims. -/

def expKeep (e : WorkExperience) : Bool := pyTruthyOpt e.company || pyTruthyOpt e.title

def eduP (e : Education) : Bool := e.gpa.isNone && e.start_date.isNone

def optEduP : Option Education → Bool
  | none => true
  | some e => eduP e

/-! Whitespace-only input machinery: a regular expression satisfying Fre
    can never match any all-whitespace input, and Nre is the auxiliary
    compositional property that a pattern cannot rescue a continuation
    that fails on every all-whitespace input. -/

def allWs (l : List Char) : Prop := ∀ c ∈ l, pyIsSpace c = true

def Nre (re : Re) : Prop :=
  ∀ fuel l k, allWs l → (∀ l2, allWs l2 → k l2 = none) → mtch fuel re l k = none

def Fre (re : Re) : Prop := ∀ fuel l k, allWs l → mtch fuel re l k = none

def headOkB (s : String) : Bool :=
  match s.data with
  | [] => false
  | c :: _ => !(pyIsSpace c)

def headOkL : List Char → Prop
  | [] => False
  | c :: _ => pyIsSpace c = false

/-! Concrete inputs used by the claims. -/

def c3Text : String := "Skills:\n  Java\nEnd"

def c4Text : String := "a1@b.cc\n\n\n\n\nJohn"

def c6Text : String := "Bachelor of Arts\nMaster of Science\nState University"

def c6TwoLineText : String := "Bachelor of Arts\nMaster of Science"

def wsText : String := " \n\t "

/-! Helper lemmas. -/

theorem findSome_if_eq_map_find {α β : Type} (f : α → β) (q : β → Bool) :
    ∀ l : List α,
      l.findSome? (fun a => if q (f a) then some (f a) else none) = (l.map f).find? q := by
  intro l
  induction l with
  | nil => rfl
  | cons a t ih =>
    by_cases h : q (f a) = true <;>
      simp [List.findSome?_cons, List.find?_cons, h, ih]

theorem nameFallback_eq_amended (text : String) :
    nameFallback text = amendedNameRule text := by
  unfold nameFallback amendedNameRule
  exact findSome_if_eq_map_find (fun raw => pyStrip ⟨raw⟩) nameQualifies _

/-! Claim theorems. -/

/-- C2: for every ParsedResume record, the total score equals the
    saturating sum min(base + bonus, 100), lies between 0 and 100, and the
    grade is the fixed step function of the total score. -/
theorem c2_score_total_and_grade (r : ParsedResume) :
    (scoreResume r).total_score = min ((scoreResume r).base_score + (scoreResume r).bonus_score) 100 ∧
    0 ≤ (scoreResume r).total_score ∧ (scoreResume r).total_score ≤ 100 ∧
    (scoreResume r).grade = gradeOf (scoreResume r).total_score :=
  ⟨rfl, Nat.zero_le _, Nat.min_le_right _ _, rfl⟩

/-- C9: the suggestions of a score report are exactly the fixed ordered
    threshold checks, one fixed advisory string per failing check, in the
    fixed order contact, summary, skills, experience, education,
    certifications. -/
theorem c9_suggestions (r : ParsedResume) :
    (scoreResume r).suggestions = specSuggestions r := by
  show getSuggestions r = specSuggestions r
  simp only [specSuggestions, suggestionChecks, getSuggestions, List.filter_cons,
    List.filter_nil, decide_eq_true_eq]
  split_ifs <;> simp_all

/-- C3 counterexample: on the concrete input c3Text the locator's result
    differs from the raw slice the claim describes, because the code
    strips surrounding whitespace from the slice before returning it. -/
theorem c3_counterexample : getSectionText c3Text "skills" ≠ specLocate c3Text "skills" := by
  decide

/-- C3 amended: for each of the five section names, the locator returns
    absent exactly when the spec-described scan does, and otherwise
    returns the spec-described slice with surrounding whitespace
    stripped. -/
theorem c3_section_locator (text sec : String) (hs : sec ∈ sectionNames) :
    getSectionText text sec = (specLocate text sec).map pyStrip := by
  have hne : (sectionHeaders sec == []) = false := by
    simp only [sectionNames, List.mem_cons, List.not_mem_nil, or_false] at hs
    rcases hs with rfl | rfl | rfl | rfl | rfl <;> decide
  unfold getSectionText specLocate
  simp only [hne, Bool.false_eq_true, if_false]
  cases h : findSec (allHeaders text) sec text.length <;> simp [h]

/-- C3 witness: instantiating the amended locator theorem on a concrete
    skills section. -/
theorem c3_section_locator_witness :
    ("skills" ∈ sectionNames) ∧
      getSectionText c3Text "skills" = (specLocate c3Text "skills").map pyStrip :=
  ⟨by decide, c3_section_locator c3Text "skills" (by decide)⟩

/-- C4 counterexample: with no person entity, on c4Text the code returns
    no name, while the claimed rule (first five non-empty lines) would
    return John: the code's window is the first five raw lines, empty
    lines included. -/
theorem c4_counterexample :
    (extractContactInfo c4Text []).name = none ∧ specNameFallback c4Text = some "John" :=
  ⟨by decide, by decide⟩

/-- C4 amended: whenever the annotator returns no entity tagged person,
    the extracted name is the first line among the first five raw lines of
    the stripped text (empty lines included in the window, each line
    stripped) that is non-empty, under 50 characters, not matching the
    email pattern and free of digits; absent when none qualifies. -/
theorem c4_name_fallback (text : String) (ents : List Ent)
    (hp : ∀ e ∈ ents, e.label ≠ "PERSON") :
    (extractContactInfo text ents).name = amendedNameRule text := by
  have h0 : ents.find? (fun e => e.label == "PERSON") = none := by
    rw [List.find?_eq_none]
    intro e he
    simpa using hp e he
  show (let n0 := (ents.find? (fun e => e.label == "PERSON")).map Ent.text
        if pyTruthyOpt n0 then n0
        else match nameFallback text with
             | some l => some l
             | none => n0) = amendedNameRule text
  rw [h0, nameFallback_eq_amended]
  cases h : amendedNameRule text <;> simp [pyTruthyOpt, h]

/-- C4 witness: instantiating the amended name-fallback theorem at c4Text
    with an empty entity list. -/
theorem c4_name_fallback_witness :
    (∀ e ∈ ([] : List Ent), e.label ≠ "PERSON") ∧
      (extractContactInfo c4Text []).name = amendedNameRule c4Text :=
  ⟨by simp, c4_name_fallback c4Text [] (by simp)⟩

theorem all_take_of_all {α : Type} (p : α → Bool) (l : List α) (n : Nat)
    (h : l.all p = true) : (l.take n).all p = true := by
  rw [List.all_eq_true] at *
  intro x hx
  exact h x (List.take_subset n l hx)

theorem expStep_shape (cur : Option WorkExperience) (accL : List WorkExperience) (line : String) :
    (expStep (cur, accL) line).2 = accL ∨
      ∃ e, cur = some e ∧ expKeep e = true ∧ (expStep (cur, accL) line).2 = accL ++ [e] := by
  by_cases hd : ((reSearch dateRangeRe (lowerL line.data)).isSome || looksLikeJobTitle line) = true
  · cases cur with
    | none => left; simp [expStep, hd]
    | some e =>
      by_cases hk : (pyTruthyOpt e.company || pyTruthyOpt e.title) = true
      · right
        exact ⟨e, rfl, hk, by simp [expStep, hd, hk]⟩
      · left
        simp [expStep, hd, hk]
  · cases cur with
    | none => left; simp [expStep, hd]
    | some e =>
      left
      simp only [expStep]
      rw [if_neg hd]
      split <;> first | rfl | (split <;> first | rfl | (split <;> rfl))

theorem expStep_acc_inv (cur : Option WorkExperience) (accL : List WorkExperience) (line : String)
    (h : accL.all expKeep = true) :
    ((expStep (cur, accL) line).2).all expKeep = true := by
  rcases expStep_shape cur accL line with h2 | ⟨e, _, hk, h2⟩
  · rw [h2]; exact h
  · rw [h2]
    simp [List.all_append, h, hk, expKeep]
    simpa [expKeep] using hk

theorem foldl_exp_inv (lines : List String) :
    ∀ st : Option WorkExperience × List WorkExperience, st.2.all expKeep = true →
      ((lines.foldl expStep st).2).all expKeep = true := by
  induction lines with
  | nil => intro st h; exact h
  | cons a t ih =>
    intro st h
    rcases st with ⟨c, accL⟩
    exact ih _ (expStep_acc_inv c accL a h)

theorem expFinish_inv (st : Option WorkExperience × List WorkExperience)
    (h : st.2.all expKeep = true) : (expFinish st).all expKeep = true := by
  rcases st with ⟨c, accL⟩
  cases c with
  | none => exact h
  | some e =>
    by_cases hk : (pyTruthyOpt e.company || pyTruthyOpt e.title) = true
    · unfold expFinish
      simp only [if_pos hk]
      simp [List.all_append, h]
      simpa [expKeep] using hk
    · unfold expFinish
      simp only [if_neg hk]
      exact h

/-- C7: no extracted work-experience entry has both title and company
    absent or empty: an accumulated entry is only ever appended when it
    has a non-empty company or a non-empty title. -/
theorem c7_experience_filter (text : String) :
    (extractExperience text).all expKeep = true := by
  unfold extractExperience
  cases h : sectionBody (getSectionText text "experience") with
  | none => rfl
  | some s => exact all_take_of_all _ _ _ (expFinish_inv _ (foldl_exp_inv _ _ rfl))

theorem eduP_mkEduEntry (line : String) : eduP (mkEduEntry line) = true := rfl

theorem eduStep_inv (cur : Option Education) (accL : List Education) (line : String)
    (h1 : accL.all eduP = true) (h2 : optEduP cur = true) :
    ((eduStep (cur, accL) line).2).all eduP = true ∧
      optEduP ((eduStep (cur, accL) line).1) = true := by
  by_cases hd : eduHasDegree line = true
  · cases cur with
    | none =>
      constructor
      · simp [eduStep, hd, h1]
      · simp [eduStep, hd, optEduP, eduP_mkEduEntry]
    | some e =>
      constructor
      · simp [eduStep, hd, List.all_append, h1]
        simpa [optEduP] using h2
      · simp [eduStep, hd, optEduP, eduP_mkEduEntry]
  · cases cur with
    | none =>
      constructor
      · simp [eduStep, hd, h1]
      · simp [eduStep, hd, optEduP]
    | some e =>
      have he : eduP e = true := by simpa [optEduP] using h2
      by_cases hi : pyTruthyOpt e.institution = true
      · constructor
        · simp [eduStep, hd, hi, h1]
        · simp [eduStep, hd, hi, optEduP, he]
      · constructor
        · simp [eduStep, hd, hi, h1]
        · cases e
          simp only [eduStep]
          rw [if_neg hd]
          simp [hi, optEduP, hd]
          simpa [eduP] using he

theorem foldl_edu_inv (lines : List String) :
    ∀ st : Option Education × List Education,
      st.2.all eduP = true → optEduP st.1 = true →
      ((lines.foldl eduStep st).2).all eduP = true ∧
        optEduP ((lines.foldl eduStep st).1) = true := by
  induction lines with
  | nil => intro st h1 h2; exact ⟨h1, h2⟩
  | cons a t ih =>
    intro st h1 h2
    rcases st with ⟨c, accL⟩
    have h3 := eduStep_inv c accL a h1 h2
    exact ih _ h3.1 h3.2

theorem eduFinish_inv (st : Option Education × List Education)
    (h1 : st.2.all eduP = true) (h2 : optEduP st.1 = true) :
    (eduFinish st).all eduP = true := by
  rcases st with ⟨c, accL⟩
  cases c with
  | none => exact h1
  | some e =>
    unfold eduFinish
    simp [List.all_append, h1]
    simpa [optEduP] using h2

/-- C10: every extracted education entry leaves gpa and start_date at
    their absent defaults: the extractor only ever fills degree,
    field_of_study, end_date and institution. -/
theorem c10_education_defaults (text : String) :
    (extractEducation text).all eduP = true := by
  unfold extractEducation
  have h := foldl_edu_inv (eduLines text) (none, []) rfl rfl
  exact all_take_of_all _ _ _ (eduFinish_inv _ h.1 h.2)

/-- C6 counterexample: on c6Text, which has two consecutive degree lines
    followed by a plain line, the extractor yields two entries but the
    second entry picks up the following line as its institution, so the
    claim that both entries have absent institution fails. -/
theorem c6_counterexample :
    (extractEducation c6Text).length = 2 ∧
      ¬(∀ e ∈ extractEducation c6Text, e.institution = none) :=
  ⟨by decide, by decide⟩

/-- C6 amended: education entries are appended unconditionally on each
    new degree line, with no field-presence filter; hence when the scanned
    education text consists of exactly two degree lines and nothing else,
    extraction yields exactly those two entries, both with absent
    institution. -/
theorem c6_two_degree_lines (text l1 l2 : String)
    (h : eduLines text = [l1, l2]) (h1 : eduHasDegree l1 = true) (h2 : eduHasDegree l2 = true) :
    extractEducation text = [mkEduEntry l1, mkEduEntry l2] ∧
      ∀ e ∈ extractEducation text, e.institution = none := by
  have hx : extractEducation text = [mkEduEntry l1, mkEduEntry l2] := by
    unfold extractEducation
    rw [h]
    simp [List.foldl, eduStep, h1, h2, eduFinish]
  refine ⟨hx, ?_⟩
  intro e he
  rw [hx] at he
  simp only [List.mem_cons, List.not_mem_nil, or_false] at he
  rcases he with rfl | rfl <;> rfl

/-- C6 witness: the amended two-degree-line theorem instantiated on a
    concrete text consisting of a bachelor line and a master line. -/
theorem c6_two_degree_lines_witness :
    (eduLines c6TwoLineText = ["Bachelor of Arts", "Master of Science"]) ∧
      (extractEducation c6TwoLineText =
        [mkEduEntry "Bachelor of Arts", mkEduEntry "Master of Science"] ∧
        ∀ e ∈ extractEducation c6TwoLineText, e.institution = none) :=
  ⟨by decide,
   c6_two_degree_lines c6TwoLineText "Bachelor of Arts" "Master of Science"
     (by decide) (by decide) (by decide)⟩

theorem strSort_dedup_sorted_nodup (l : List String) :
    List.Sorted (· ≤ ·) (strSort l.dedup) ∧ (strSort l.dedup).Nodup :=
  ⟨List.sorted_insertionSort _ _,
   (List.perm_insertionSort _ _).symm.nodup (List.nodup_dedup _)⟩

/-- C8: for every input text and any phrase-matcher output, the extracted
    skills list is sorted lexicographically and has no duplicates under
    exact, case-sensitive string equality. -/
theorem c8_skills_sorted (text : String) (mskills : List String) :
    List.Sorted (· ≤ ·) (extractSkills text mskills) ∧ (extractSkills text mskills).Nodup := by
  unfold extractSkills
  exact strSort_dedup_sorted_nodup _

theorem ws_cases (c : Char) (h : pyIsSpace c = true) :
    c = ' ' ∨ c = '\t' ∨ c = '\n' ∨ c = '\r' ∨ c = Char.ofNat 11 ∨ c = Char.ofNat 12 := by
  simpa [pyIsSpace, Bool.or_eq_true, beq_iff_eq, or_assoc] using h

theorem allWs_tail {c : Char} {l : List Char} (h : allWs (c :: l)) : allWs l :=
  fun x hx => h x (List.mem_cons_of_mem _ hx)

theorem N_any : ∀ re : Re, Nre re := by
  intro re
  induction re with
  | eps =>
    intro fuel l k hl hk
    cases fuel with
    | zero => rfl
    | succ f => exact hk l hl
  | cls p =>
    intro fuel l k hl hk
    cases fuel with
    | zero => rfl
    | succ f =>
      cases l with
      | nil => rfl
      | cons c r =>
        by_cases hp : p c = true
        · simp only [mtch, hp, if_true]
          exact hk r (allWs_tail hl)
        · simp only [mtch]
          rw [if_neg hp]
  | seq a b iha ihb =>
    intro fuel l k hl hk
    cases fuel with
    | zero => rfl
    | succ f =>
      simp only [mtch]
      exact iha f l _ hl (fun l2 h2 => ihb f l2 k h2 hk)
  | alt a b iha ihb =>
    intro fuel l k hl hk
    cases fuel with
    | zero => rfl
    | succ f =>
      simp only [mtch]
      rw [iha f l k hl hk]
      exact ihb f l k hl hk
  | star r ihr =>
    intro fuel
    induction fuel with
    | zero => intro l k hl hk; rfl
    | succ f ihf =>
      intro l k hl hk
      have hcont : ∀ l2, allWs l2 →
          (if l2.length < l.length then mtch f (Re.star r) l2 k else none) = none := by
        intro l2 h2
        by_cases hlen : l2.length < l.length
        · simp only [if_pos hlen]
          exact ihf l2 k h2 hk
        · simp only [if_neg hlen]
      simp only [mtch]
      rw [ihr f l _ hl hcont]
      exact hk l hl

theorem F_cls (p : Char → Bool) (hp : ∀ c, pyIsSpace c = true → p c = false) :
    Fre (Re.cls p) := by
  intro fuel l k hl
  cases fuel with
  | zero => rfl
  | succ f =>
    cases l with
    | nil => rfl
    | cons c r =>
      simp only [mtch]
      rw [if_neg]
      rw [hp c (hl c (List.mem_cons_self c r))]
      simp

theorem F_seq_left (a b : Re) (ha : Fre a) : Fre (Re.seq a b) := by
  intro fuel l k hl
  cases fuel with
  | zero => rfl
  | succ f =>
    simp only [mtch]
    exact ha f l _ hl

theorem F_seq_right (a b : Re) (hb : Fre b) : Fre (Re.seq a b) := by
  intro fuel l k hl
  cases fuel with
  | zero => rfl
  | succ f =>
    simp only [mtch]
    exact N_any a f l _ hl (fun l2 h2 => hb f l2 k h2)

theorem F_alt (a b : Re) (ha : Fre a) (hb : Fre b) : Fre (Re.alt a b) := by
  intro fuel l k hl
  cases fuel with
  | zero => rfl
  | succ f =>
    simp only [mtch]
    rw [ha f l k hl]
    exact hb f l k hl

theorem F_rstrL (c : Char) (cs : List Char) (hc : pyIsSpace c = false) :
    Fre (rstrL (c :: cs)) := by
  show Fre (Re.seq (rchar c) (rstrL cs))
  apply F_seq_left
  apply F_cls
  intro d hd
  show (d == c) = false
  by_cases hdc : d = c
  · subst hdc
    rw [hd] at hc
    cases hc
  · simpa using hdc

theorem F_rstr_headOk (s : String) (h : headOkB s = true) : Fre (rstr s) := by
  unfold rstr
  cases hd : s.data with
  | nil =>
    simp only [headOkB, hd] at h
    cases h
  | cons c cs =>
    apply F_rstrL
    simp only [headOkB, hd] at h
    simpa using h

theorem F_rFail : Fre rFail := F_cls _ (fun _ _ => rfl)

theorem F_altsStr (ss : List String) (h : ss.all headOkB = true) : Fre (altsStr ss) := by
  induction ss with
  | nil => exact F_rFail
  | cons s t ih =>
    simp only [List.all_cons, Bool.and_eq_true] at h
    show Fre (Re.alt (rstr s) (altsStr t))
    exact F_alt _ _ (F_rstr_headOk s h.1) (ih h.2)

theorem sectionHeaders_headOk (sec : String) : (sectionHeaders sec).all headOkB = true := by
  unfold sectionHeaders
  split_ifs <;> decide

theorem F_hdrRe (sec : String) : Fre (hdrRe sec) :=
  F_seq_right _ _ (F_seq_left _ _ (F_altsStr _ (sectionHeaders_headOk sec)))

theorem F_email : Fre emailRe := by
  unfold emailRe rplus emailLocalC
  apply F_seq_left
  apply F_seq_left
  apply F_cls
  intro c hc
  rcases ws_cases c hc with rfl | rfl | rfl | rfl | rfl | rfl <;> decide

theorem F_digC : Fre digC := by
  unfold digC
  apply F_cls
  intro c hc
  rcases ws_cases c hc with rfl | rfl | rfl | rfl | rfl | rfl <;> decide

theorem F_phone1 : Fre phone1Re := by
  unfold phone1Re
  apply F_seq_right
  apply F_seq_right
  apply F_seq_left
  unfold d3
  exact F_seq_left _ _ F_digC

theorem F_phone2 : Fre phone2Re := by
  unfold phone2Re
  apply F_seq_left
  unfold rchar
  apply F_cls
  intro c hc
  rcases ws_cases c hc with rfl | rfl | rfl | rfl | rfl | rfl <;> decide

theorem F_linkedin : Fre linkedinRe := by
  unfold linkedinRe
  apply F_seq_right
  apply F_seq_right
  apply F_seq_left
  exact F_rstr_headOk "linkedin.com/in/" (by decide)

theorem searchAux_ws (re : Re) (hF : Fre re) :
    ∀ (l : List Char) (i : Nat), allWs l → searchAux re l i = none := by
  intro l
  induction l with
  | nil =>
    intro i h
    have h0 : mtchRun re [] = none := hF _ _ _ h
    simp [searchAux, h0]
  | cons c r ih =>
    intro i h
    have h0 : mtchRun re (c :: r) = none := hF _ _ _ h
    simp only [searchAux, h0]
    exact ih (i + 1) (allWs_tail h)

theorem hdrTry_ws (re : Re) (hF : Fre re) (l : List Char) (i : Nat) (h : allWs l) :
    hdrTry re l i = none := by
  unfold hdrTry
  have h1 : mtchRun re l = none := hF _ _ _ h
  have h2 : (if i == 0 then mtchRun re l else none) = none := by
    cases i == 0 <;> simp [h1]
  rw [h2]
  split
  · rename_i rem heq
    exact absurd heq (by simp)
  · split
    · rename_i rest
      have h3 : mtchRun re rest = none := hF _ _ _ (allWs_tail h)
      simp [h3]
    · rfl

theorem hdrScan_ws (re : Re) (hF : Fre re) :
    ∀ (fl : Nat) (l : List Char) (i : Nat), allWs l → hdrScan re fl l i = [] := by
  intro fl
  induction fl with
  | zero => intro l i h; rfl
  | succ f ih =>
    intro l i h
    simp only [hdrScan]
    rw [hdrTry_ws re hF l i h]
    cases l with
    | nil => rfl
    | cons c r => exact ih r (i + 1) (allWs_tail h)

theorem toLower_ws (c : Char) (h : pyIsSpace c = true) : pyIsSpace c.toLower = true := by
  rcases ws_cases c h with rfl | rfl | rfl | rfl | rfl | rfl <;> decide

theorem allWs_lower (l : List Char) (h : allWs l) : allWs (lowerL l) := by
  intro c hc
  unfold lowerL at hc
  rcases List.mem_map.mp hc with ⟨d, hd, rfl⟩
  exact toLower_ws d (h d hd)

theorem allHeaders_ws (text : String) (h : allWs text.data) : allHeaders text = [] := by
  unfold allHeaders
  have hlt : allWs (lowerL text.data) := allWs_lower _ h
  simp only [sectionNames, List.flatMap_cons, List.flatMap_nil]
  rw [hdrScan_ws _ (F_hdrRe _) _ _ _ hlt, hdrScan_ws _ (F_hdrRe _) _ _ _ hlt,
      hdrScan_ws _ (F_hdrRe _) _ _ _ hlt, hdrScan_ws _ (F_hdrRe _) _ _ _ hlt,
      hdrScan_ws _ (F_hdrRe _) _ _ _ hlt]
  rfl

theorem getSectionText_ws (text sec : String) (h : allWs text.data) :
    getSectionText text sec = none := by
  unfold getSectionText
  rw [allHeaders_ws text h]
  split <;> rfl

theorem dropWhile_ws (l : List Char) (h : allWs l) : l.dropWhile pyIsSpace = [] := by
  induction l with
  | nil => rfl
  | cons c r ih =>
    rw [List.dropWhile_cons, if_pos (by rw [h c (List.mem_cons_self c r)])]
    exact ih (allWs_tail h)

theorem pyStrip_ws (text : String) (h : allWs text.data) : pyStrip text = "" := by
  unfold pyStrip stripL
  rw [dropWhile_ws _ h]
  rfl

theorem splitOnCharL_ws (sep : Char) :
    ∀ l : List Char, allWs l → ∀ p ∈ splitOnCharL sep l, allWs p := by
  intro l
  induction l with
  | nil =>
    intro _ p hp
    simp only [splitOnCharL, List.mem_singleton] at hp
    subst hp
    intro x hx
    cases hx
  | cons c r ih =>
    intro h p hp
    have hr := ih (allWs_tail h)
    cases hsp : splitOnCharL sep r with
    | nil =>
      simp only [splitOnCharL, hsp, List.mem_singleton] at hp
      subst hp
      intro x hx
      cases hx
    | cons h0 t =>
      by_cases hc : (c == sep) = true
      · simp only [splitOnCharL, hsp, hc, if_true, List.mem_cons] at hp
        rcases hp with rfl | hp
        · intro x hx; cases hx
        · exact hr p (by rw [hsp]; simpa using hp)
      · simp only [splitOnCharL, hsp, hc, if_false, Bool.false_eq_true, List.mem_cons] at hp
        rcases hp with rfl | hp
        · intro x hx
          rcases List.mem_cons.mp hx with rfl | hx2
          · exact h x (List.mem_cons_self _ _)
          · exact hr h0 (by rw [hsp]; exact List.mem_cons_self _ _) x hx2
        · exact hr p (by rw [hsp]; exact List.mem_cons_of_mem _ hp)

theorem cleanLines_ws (s : String) (h : allWs s.data) : cleanLines s = [] := by
  unfold cleanLines
  rw [List.filter_eq_nil_iff]
  intro a ha
  rcases List.mem_map.mp ha with ⟨p, hp, rfl⟩
  have hws : allWs p := splitOnCharL_ws '\n' s.data h p hp
  have : pyStrip ⟨p⟩ = "" := pyStrip_ws _ hws
  simp [this]

theorem containsSub_ws (c : Char) (ps : List Char) (hc : pyIsSpace c = false) :
    ∀ txt : List Char, allWs txt → containsSub (c :: ps) txt = false := by
  intro txt
  induction txt with
  | nil => intro _; rfl
  | cons t ts ih =>
    intro h
    have ht : pyIsSpace t = true := h t (List.mem_cons_self t ts)
    have hne : (c == t) = false := by
      by_cases hct : c = t
      · subst hct
        rw [ht] at hc
        cases hc
      · simpa using hct
    simp only [containsSub, startsWithL, hne, Bool.false_and, Bool.false_or]
    exact ih (allWs_tail h)

theorem containsSub_ws_head (pat : List Char) (hp : pat.head?.map pyIsSpace = some false) :
    ∀ txt : List Char, allWs txt → containsSub pat txt = false := by
  cases pat with
  | nil => cases hp
  | cons c ps =>
    intro txt h
    exact containsSub_ws c ps (by simpa using hp) txt h

theorem extractLanguages_ws (text : String) (h : allWs text.data) :
    extractLanguages text [] = [] := by
  unfold extractLanguages
  have hlt : allWs (lowerL text.data) := allWs_lower _ h
  have hall : ∀ s ∈ commonLanguages, (lowerL s.data).head?.map pyIsSpace = some false := by
    decide
  have hfil :
      commonLanguages.filter (fun lang => containsSub (lowerL lang.data) (lowerL text.data)) = [] := by
    rw [List.filter_eq_nil_iff]
    intro lang hl
    rw [containsSub_ws_head _ (hall lang hl) _ hlt]
    simp
  simp [hfil, strSort]

/-- C5: on empty or whitespace-only input text, with the annotator
    returning no entities and the phrase matcher no hits (as it does on
    such text), parsing returns a record with every scalar field absent
    and every list field empty. -/
theorem c5_empty_input (text : String) (ents : List Ent) (mskills : List String) (inc : Bool)
    (hw : allWs text.data) (he : ents = []) (hm : mskills = []) :
    (parse text ents mskills inc).contact =
        { name := none, email := none, phone := none, linkedin := none, location := none } ∧
      (parse text ents mskills inc).summary = none ∧
      (parse text ents mskills inc).skills = [] ∧
      (parse text ents mskills inc).experience = [] ∧
      (parse text ents mskills inc).education = [] ∧
      (parse text ents mskills inc).certifications = [] ∧
      (parse text ents mskills inc).languages = [] := by
  subst he hm
  refine ⟨?_, ?_, ?_, ?_, ?_, ?_, ?_⟩
  · show extractContactInfo text [] = _
    unfold extractContactInfo
    have hem : reSearch emailRe text.data = none := searchAux_ws _ F_email _ 0 hw
    have hp1 : reSearch phone1Re text.data = none := searchAux_ws _ F_phone1 _ 0 hw
    have hp2 : reSearch phone2Re text.data = none := searchAux_ws _ F_phone2 _ 0 hw
    have hlk : reSearch linkedinRe (lowerL text.data) = none :=
      searchAux_ws _ F_linkedin _ 0 (allWs_lower _ hw)
    have hnf : nameFallback text = none := by
      unfold nameFallback
      rw [pyStrip_ws text hw]
      rfl
    simp [hem, hp1, hp2, hlk, hnf, pyTruthyOpt]
  · show extractSummary text = none
    unfold extractSummary
    rw [getSectionText_ws text "summary" hw]
    rfl
  · show extractSkills text [] = []
    unfold extractSkills
    rw [getSectionText_ws text "skills" hw]
    rfl
  · show extractExperience text = []
    unfold extractExperience
    rw [getSectionText_ws text "experience" hw]
    rfl
  · show extractEducation text = []
    unfold extractEducation eduLines eduSource
    rw [getSectionText_ws text "education" hw]
    show (eduFinish ((cleanLines text).foldl eduStep (none, []))).take 5 = []
    rw [cleanLines_ws text hw]
    rfl
  · show extractCertifications text = []
    unfold extractCertifications
    rw [getSectionText_ws text "certifications" hw]
    rfl
  · show extractLanguages text [] = []
    exact extractLanguages_ws text hw

/-- C5 witness: the empty-input theorem instantiated on a concrete
    whitespace-only text. -/
theorem c5_empty_input_witness :
    allWs wsText.data ∧
      ((parse wsText [] [] false).contact =
          { name := none, email := none, phone := none, linkedin := none, location := none } ∧
        (parse wsText [] [] false).summary = none ∧
        (parse wsText [] [] false).skills = [] ∧
        (parse wsText [] [] false).experience = [] ∧
        (parse wsText [] [] false).education = [] ∧
        (parse wsText [] [] false).certifications = [] ∧
        (parse wsText [] [] false).languages = []) :=
  ⟨by unfold allWs; decide, c5_empty_input wsText [] [] false (by unfold allWs; decide) rfl rfl⟩

theorem scenarioExperience_eval :
    extractExperience scenarioText =
      [{ company := some "Acme Corp", title := some "Software Engineer",
         start_date := none, end_date := none, description := none, highlights := [] }] := by
  decide

theorem scenarioEducation_eval :
    extractEducation scenarioText =
      [{ institution := some "State University", degree := some "Bachelor",
         field_of_study := some "Science in Computer Science",
         start_date := none, end_date := none, gpa := none }] := by
  decide

/-- C1 counterexample: on the scenario text the code's single experience
    entry has no highlights (the bullet line attaches to the discarded
    entry opened by the bare date-range line), and the education entry has
    no end_date (the year 2019 is not on the degree line), contradicting
    the claimed highlight and end_date. -/
theorem c1_counterexample :
    ¬(∃ e, extractExperience scenarioText = [e] ∧ e.highlights = ["Built things"]) ∧
      ¬(∃ d, extractEducation scenarioText = [d] ∧ d.end_date = some "2019") := by
  constructor
  · rintro ⟨e, he, hh⟩
    rw [scenarioExperience_eval] at he
    injection he with h1 _
    rw [← h1] at hh
    cases hh
  · rintro ⟨d, hd, hy⟩
    rw [scenarioEducation_eval] at hd
    injection hd with h1 _
    rw [← h1] at hy
    cases hy

/-- C1 amended: on the scenario text, whatever the annotator returns,
    parsing yields the claimed email and phone, exactly one experience
    entry with the claimed title and company but no highlights, and
    exactly one education entry whose degree token is Bachelor, whose
    field of study contains Computer Science, whose end_date is absent and
    whose institution is State University. -/
theorem c1_scenario (ents : List Ent) (mskills : List String) (inc : Bool) :
    (parse scenarioText ents mskills inc).contact.email = some "john@x.com" ∧
      (parse scenarioText ents mskills inc).contact.phone = some "(555) 123-4567" ∧
      (parse scenarioText ents mskills inc).experience.length = 1 ∧
      (parse scenarioText ents mskills inc).experience.map WorkExperience.title =
        [some "Software Engineer"] ∧
      (parse scenarioText ents mskills inc).experience.map WorkExperience.company =
        [some "Acme Corp"] ∧
      (parse scenarioText ents mskills inc).experience.map WorkExperience.highlights = [[]] ∧
      (parse scenarioText ents mskills inc).education.length = 1 ∧
      (parse scenarioText ents mskills inc).education.map Education.degree = [some "Bachelor"] ∧
      (∃ f, (parse scenarioText ents mskills inc).education.map Education.field_of_study =
          [some f] ∧ containsSub "Computer Science".data f.data = true) ∧
      (parse scenarioText ents mskills inc).education.map Education.end_date = [none] ∧
      (parse scenarioText ents mskills inc).education.map Education.institution =
        [some "State University"] := by
  have hexp : (parse scenarioText ents mskills inc).experience =
      [{ company := some "Acme Corp", title := some "Software Engineer",
         start_date := none, end_date := none, description := none, highlights := [] }] :=
    scenarioExperience_eval
  have hedu : (parse scenarioText ents mskills inc).education =
      [{ institution := some "State University", degree := some "Bachelor",
         field_of_study := some "Science in Computer Science",
         start_date := none, end_date := none, gpa := none }] :=
    scenarioEducation_eval
  refine ⟨rfl, rfl, ?_, ?_, ?_, ?_, ?_, ?_, ?_, ?_, ?_⟩
  · rw [hexp]; rfl
  · rw [hexp]; rfl
  · rw [hexp]; rfl
  · rw [hexp]; rfl
  · rw [hedu]; rfl
  · rw [hedu]; rfl
  · exact ⟨"Science in Computer Science", by rw [hedu]; rfl, by decide⟩
  · rw [hedu]; rfl
  · rw [hedu]; rfl
